import Mathlib

/-!
Shallow embedding of `src/wavelet_filter.c`: fixed-point wavelet filtering
with Haar / Daubechies-4 / Daubechies-6 kernels, hard/soft/zero
thresholding, and a multi-level decompose / threshold / reconstruct
pipeline.  Samples are 16-bit two's-complement integers, modelled as `Int`
with explicit wrap (`toInt16`); the 32-bit accumulators of the forward
transform never overflow for 16-bit inputs and are modelled exactly.
-/

/-- Two's-complement truncation to a signed 16-bit value, as performed by a
C cast to `int16_t`. -/
def toInt16 (x : Int) : Int := (x + 32768) % 65536 - 32768

/-- Arithmetic right shift by `q` bits (floor division by `2^q`), as
performed by C `>>` on a signed value. -/
def asr (x : Int) (q : Nat) : Int := x / 2 ^ q

-- Q14 fixed-point kernels, copied from the tables in wavelet_filter.c.
def haar_h0 : List Int := [11585, 11585]
def haar_h1 : List Int := [11585, -11585]
def haar_g0 : List Int := [11585, 11585]
def haar_g1 : List Int := [-11585, 11585]

def db4_h0 : List Int := [7913, 13705, 3672, -2120]
def db4_h1 : List Int := [-2120, -3672, 13705, -7913]
def db4_g0 : List Int := [-2120, 3672, 13705, 7913]
def db4_g1 : List Int := [-7913, 13705, -3672, -2120]

def db6_h0 : List Int := [3853, 9345, 5326, -1565, -990, 408]
def db6_h1 : List Int := [408, 990, -1565, -5326, 9345, -3853]
def db6_g0 : List Int := [408, -990, -1565, 5326, 9345, 3853]
def db6_g1 : List Int := [-3853, 9345, -5326, -1565, 990, 408]

inductive wavelet_type_t where
  | WAVELET_DB4
  | WAVELET_DB6
  | WAVELET_HAAR
deriving DecidableEq

inductive threshold_type_t where
  | THRESHOLD_HARD
  | THRESHOLD_SOFT
  | THRESHOLD_ZERO
deriving DecidableEq

structure wavelet_config_t where
  wavelet : wavelet_type_t
  threshold_type : threshold_type_t
  decomposition_levels : Nat
  threshold_value : Int
  q_format : Nat
deriving DecidableEq

def MAX_SIGNAL_LENGTH : Nat := 256
def MAX_DECOMPOSITION_LEVELS : Nat := 8

/-- The four kernels and shared kernel length returned by
`get_wavelet_coeffs`. -/
structure FilterBank where
  h0 : List Int
  h1 : List Int
  g0 : List Int
  g1 : List Int
  len : Nat
deriving DecidableEq

def get_wavelet_coeffs : wavelet_type_t → FilterBank
  | .WAVELET_DB6 => ⟨db6_h0, db6_h1, db6_g0, db6_g1, 6⟩
  | .WAVELET_HAAR => ⟨haar_h0, haar_h1, haar_g0, haar_g1, 2⟩
  | .WAVELET_DB4 => ⟨db4_h0, db4_h1, db4_g0, db4_g1, 4⟩

/-- The out-parameter discipline of `get_wavelet_coeffs`: every branch of
the C switch stores through all four kernel out-pointers, so a call has
defined behaviour only when all four are non-null (`true` below).  `dwt`
passes four valid pointers, but `idwt` passes null for the two analysis
out-pointers (wavelet_filter.c line 115), so in the C source every `idwt`
call that reaches the lookup stores through a null pointer — a latent
defect that neither the spec nor the frozen claims mention.  The `idwt`
model below follows the spec's registry contract (a pure lookup), the only
reading under which the rest of the function is reachable; the defect
itself is recorded by the theorem `idwt_kernel_lookup_null_store`. -/
def get_wavelet_coeffs_call (h0_ok h1_ok g0_ok g1_ok : Bool)
    (w : wavelet_type_t) : Option FilterBank :=
  if h0_ok && h1_ok && g0_ok && g1_ok then some (get_wavelet_coeffs w) else none

def wavelet_get_default_config : wavelet_config_t :=
  ⟨.WAVELET_DB4, .THRESHOLD_HARD, 6, 100, 14⟩

/-- The input index `(2*i - j + n) % n` of the forward transform, computed
in ℕ; the C `int` expression is nonnegative whenever `j < n`, so the two
agree (proved below). -/
def dwt_input_idx (i j n : Nat) : Nat := (2 * i + n - j) % n

/-- The inner accumulation loop of `dwt`: `Σ_j input[(2i-j+n) mod n] * kernel[j]`
over the taps, in exact integer arithmetic (the C `int32_t` accumulator
cannot overflow for 16-bit samples). -/
def dwt_accum (input kernel : List Int) (kl i n : Nat) : Int :=
  (List.range kl).foldl
    (fun acc j => acc + input.getD (dwt_input_idx i j n) 0 * kernel.getD j 0) 0

/-- Single-level forward transform `dwt`.  Returns `none` when the C
function returns without writing the output bands (`n < 2` or
`n < kernel_len`), otherwise the two bands of length `n / 2`. -/
def dwt (input : List Int) (n : Nat) (w : wavelet_type_t) (q : Nat) :
    Option (List Int × List Int) :=
  if n < 2 then none
  else if n < (get_wavelet_coeffs w).len then none
  else
    some ((List.range (n / 2)).map fun i =>
            toInt16 (asr (dwt_accum input (get_wavelet_coeffs w).h0 (get_wavelet_coeffs w).len i n) q),
          (List.range (n / 2)).map fun i =>
            toInt16 (asr (dwt_accum input (get_wavelet_coeffs w).h1 (get_wavelet_coeffs w).len i n) q))

/-- The output index `(2*i - j + 2m) % (2m)` of the inverse transform. -/
def idwt_output_idx (i j m2 : Nat) : Nat := (2 * i + m2 - j) % m2

/-- One `output_signal[idx] += (int16_t)v` step: the per-tap value is
truncated to `int16_t` before the add, and the add itself is stored into
the 16-bit sample, wrapping mod `2^16`. -/
def scatter_step (out : List Int) (p : Nat × Int) : List Int :=
  out.set p.1 (toInt16 (out.getD p.1 0 + toInt16 p.2))

def scatterAdd (out : List Int) (l : List (Nat × Int)) : List Int :=
  l.foldl scatter_step out

/-- The (index, value) pairs produced by one of the two accumulation loop
nests of `idwt`, in loop order: value `(coeffs[i] * g[j]) >> q` at index
`(2*i - j + 2m) mod 2m`. -/
def idwt_contribs (coeffs g : List Int) (kl m q : Nat) : List (Nat × Int) :=
  (List.range m).flatMap fun i =>
    (List.range kl).map fun j =>
      (idwt_output_idx i j (2 * m), asr (coeffs.getD i 0 * g.getD j 0) q)

/-- Single-level inverse transform `idwt`.  Returns `none` when the C
function returns without writing anything (including the zeroing
`memset`), i.e. when `n_input_coeffs < 1` or `n_input_coeffs < kernel_len/2`;
otherwise the `2m`-sample output: zero-initialised, then overlap-added
with per-tap quantised contributions from both bands.  The kernel lookup
is modelled by the spec's pure-lookup contract; see
`get_wavelet_coeffs_call` for the null-out-pointer defect of the actual
call. -/
def idwt (approx detail : List Int) (m : Nat) (w : wavelet_type_t) (q : Nat) :
    Option (List Int) :=
  if m < 1 then none
  else if m < (get_wavelet_coeffs w).len / 2 then none
  else
    some (scatterAdd
            (scatterAdd (List.replicate (2 * m) 0)
              (idwt_contribs approx (get_wavelet_coeffs w).g0 (get_wavelet_coeffs w).len m q))
            (idwt_contribs detail (get_wavelet_coeffs w).g1 (get_wavelet_coeffs w).len m q))

/-- `apply_thresholding` on a coefficient band. -/
def apply_thresholding (coeffs : List Int) (config : wavelet_config_t) : List Int :=
  if coeffs.length = 0 then coeffs
  else
    match config.threshold_type with
    | .THRESHOLD_HARD =>
        coeffs.map fun c => if |c| < config.threshold_value then 0 else c
    | .THRESHOLD_SOFT =>
        coeffs.map fun c =>
          if |c| < config.threshold_value then 0
          else if 0 < c then c - config.threshold_value else c + config.threshold_value
    | .THRESHOLD_ZERO => List.replicate coeffs.length 0

/-- Sum of squared differences between two equal-length signals (the
numerator of the test harness's `calculate_mse`). -/
def sum_sq_error (a b : List Int) : Int :=
  ((a.zip b).map fun p => (p.1 - p.2) * (p.1 - p.2)).sum

/-- State after the decomposition loop of `wavelet_filter`: the per-level
approximation / detail bands, the effective level count (shrunk when the
running length dropped below 2), and the final running length. -/
structure DecompState where
  bandsA : List (List Int)
  bandsD : List (List Int)
  levels : Nat
  curN : Nat
deriving DecidableEq

/-- The capacity-planning walk of `wavelet_filter`: per-level band sizes
`n/2, n/4, ...`, stopping when the running length drops below 2 or the
requested level count is exhausted. -/
def plan_halves (n : Nat) : Nat → List Nat
  | 0 => []
  | levels + 1 => if n < 2 then [] else n / 2 :: plan_halves (n / 2) levels

/-- The freshly `malloc`ed per-level bands.  `malloc` returns uninitialised
memory; each cell is modelled by the arbitrary value `junk`. -/
def initial_bands (junk : Int) (n levels : Nat) : List (List Int) :=
  (plan_halves n levels).map fun h => List.replicate h junk

/-- The decomposition loop of `wavelet_filter`: level `i` transforms the
previous approximation band (the signal at level 0) into bands `i`; when
the running length drops below 2 the active level count shrinks to `i`.
When `dwt` returns without writing (`n < kernel_len`), the loop still
redirects its input to the (uninitialised) approximation band, exactly as
the C code does. -/
def decompose (w : wavelet_type_t) (q : Nat) :
    List Int → Nat → List (List Int) → List (List Int) → Nat → Nat → DecompState
  | _, curN, bA, bD, idx, 0 => ⟨bA, bD, idx, curN⟩
  | input, curN, bA, bD, idx, remaining + 1 =>
    if curN < 2 then ⟨bA, bD, idx, curN⟩
    else
      match dwt input curN w q with
      | some (a, d) =>
          decompose w q a (curN / 2) (bA.set idx a) (bD.set idx d) (idx + 1) remaining
      | none =>
          decompose w q (bA.getD idx []) (curN / 2) bA bD (idx + 1) remaining

/-- The thresholding loop of `wavelet_filter`: applies the configured
policy to every active level's detail band. -/
def threshold_details (config : wavelet_config_t) (levels : Nat)
    (bD : List (List Int)) : List (List Int) :=
  (List.range levels).foldl
    (fun acc i => acc.set i (apply_thresholding (acc.getD i []) config)) bD

/-- The reconstruction loop of `wavelet_filter`, walking level `i` down to
0.  At `i > 0` a scratch buffer is `malloc`ed (consulting `allocOk`; on
failure the function returns with the caller's signal untouched) and
`idwt` writes into it — or leaves it as uninitialised `junk` when its
guards fail.  At `i = 0`, `idwt` writes directly into the first `2*m`
samples of the caller's signal, or leaves the signal untouched when its
guards fail. -/
def reconstruct (allocOk : Nat → Bool) (junk : Int) (w : wavelet_type_t) (q : Nat)
    (bD : List (List Int)) (signal : List Int) :
    List Int → Nat → Nat → Nat → Option (List Int)
  | recon, m, 0, _ =>
    match idwt recon (bD.getD 0 []) m w q with
    | some out => some (out ++ signal.drop (2 * m))
    | none => some signal
  | recon, m, i + 1, allocIdx =>
    if allocOk allocIdx = false then some signal
    else
      match idwt recon (bD.getD (i + 1) []) m w q with
      | some out => reconstruct allocOk junk w q bD signal out (2 * m) i (allocIdx + 1)
      | none =>
          reconstruct allocOk junk w q bD signal
            (List.replicate (2 * m) junk) (2 * m) i (allocIdx + 1)

/-- The end-to-end `wavelet_filter`, parameterised by an allocation oracle
(`allocOk k` is whether the `k`-th `malloc` of the call succeeds; order:
0 = coefficient scratch region, 1 = reconstruction seed buffer, 2.. =
per-level reconstruction buffers) and by the `junk` value filling
uninitialised allocations.  Result `some s` is the final content of the
caller's signal buffer; `none` means the call dereferenced an
out-of-bounds pointer (`approx_coeffs_ptrs[levels-1]` with `levels = 0`),
i.e. undefined behaviour. -/
def wavelet_filter_alloc (allocOk : Nat → Bool) (junk : Int)
    (signal : List Int) (config : wavelet_config_t) : Option (List Int) :=
  if signal.length = 0 ∨ MAX_SIGNAL_LENGTH < signal.length then some signal
  else if config.decomposition_levels = 0 ∨
      MAX_DECOMPOSITION_LEVELS < config.decomposition_levels then some signal
  else if allocOk 0 = false then some signal
  else
    let st := decompose config.wavelet config.q_format signal signal.length
      (initial_bands junk signal.length config.decomposition_levels)
      (initial_bands junk signal.length config.decomposition_levels)
      0 config.decomposition_levels
    let bD := threshold_details config st.levels st.bandsD
    if allocOk 1 = false then some signal
    else if st.levels = 0 then none
    else
      reconstruct allocOk junk config.wavelet config.q_format bD signal
        (st.bandsA.getD (st.levels - 1) []) st.curN (st.levels - 1) 2

/-- `wavelet_filter` under a well-behaved allocator (every `malloc`
succeeds, uninitialised memory arbitrarily fixed at 0). -/
def wavelet_filter (signal : List Int) (config : wavelet_config_t) : Option (List Int) :=
  wavelet_filter_alloc (fun _ => true) 0 signal config

/-- `wavelet_filter` including the null-pointer guards: a `none` signal or
config models a null argument; the C function returns immediately, leaving
the buffer (when there is one) untouched. -/
def wavelet_filter_opt (sig : Option (List Int)) (cfg : Option wavelet_config_t)
    (allocOk : Nat → Bool) (junk : Int) : Option (Option (List Int)) :=
  match sig, cfg with
  | some s, some c => (wavelet_filter_alloc allocOk junk s c).map some
  | s, _ => some s


/-! ### Arithmetic helper lemmas -/

theorem toInt16_idem (x : Int) : toInt16 (toInt16 x) = toInt16 x := by
  unfold toInt16; omega

theorem toInt16_add_left (a b : Int) : toInt16 (toInt16 a + b) = toInt16 (a + b) := by
  unfold toInt16; omega

theorem toInt16_wrap (x : Int) : -32768 ≤ toInt16 x ∧ toInt16 x < 32768 := by
  unfold toInt16; omega

theorem toInt16_emod_eq (x : Int) : toInt16 x % 65536 = x % 65536 := by
  unfold toInt16; omega

theorem kernel_len_ge_two (w : wavelet_type_t) : 2 ≤ (get_wavelet_coeffs w).len := by
  cases w <;> decide

/-- The kernel lookup exactly as `idwt` performs it — null analysis
out-pointers, valid synthesis out-pointers — has undefined behaviour for
every family: `get_wavelet_coeffs` stores through the null pointers.  This
latent defect sits outside the frozen claims, which are settled against
the registry's pure-lookup contract. -/
theorem idwt_kernel_lookup_null_store (w : wavelet_type_t) :
    get_wavelet_coeffs_call false false true true w = none := rfl

/-! ### List helper lemmas -/

theorem getD_set_self (l : List Int) (i : Nat) (v : Int) (h : i < l.length) :
    (l.set i v).getD i 0 = v := by
  induction l generalizing i with
  | nil => simp at h
  | cons a t ih =>
    cases i with
    | zero => rfl
    | succ n => simpa using ih n (by simpa using h)

theorem getD_set_ne (l : List Int) (i k : Nat) (v : Int) (h : i ≠ k) :
    (l.set i v).getD k 0 = l.getD k 0 := by
  induction l generalizing i k with
  | nil => rfl
  | cons a t ih =>
    cases i with
    | zero =>
      cases k with
      | zero => exact absurd rfl h
      | succ kk => rfl
    | succ n =>
      cases k with
      | zero => rfl
      | succ kk => simpa using ih n kk (by omega)

theorem getD_replicate_zero (n k : Nat) : (List.replicate n (0 : Int)).getD k 0 = 0 := by
  induction n generalizing k with
  | zero => rfl
  | succ m ih =>
    cases k with
    | zero => rfl
    | succ kk => simp [List.replicate_succ, ih kk]

theorem getD_map_range (f : Nat → Int) (n i : Nat) (h : i < n) :
    ((List.range n).map f).getD i 0 = f i := by
  rw [List.getD_eq_getElem?_getD, List.getElem?_map, List.getElem?_range h]
  rfl

theorem getD_map_lt (f : Int → Int) (l : List Int) (k : Nat) (h : k < l.length) :
    (l.map f).getD k 0 = f (l.getD k 0) := by
  rw [List.getD_eq_getElem?_getD, List.getElem?_map, List.getElem?_eq_getElem h,
    List.getD_eq_getElem?_getD, List.getElem?_eq_getElem h]
  rfl

theorem getD_of_length_le (l : List Int) (k : Nat) (h : l.length ≤ k) :
    l.getD k 0 = 0 := by
  rw [List.getD_eq_getElem?_getD, List.getElem?_eq_none (by omega)]
  rfl

/-! ### Scatter-accumulation lemmas: the nested `+=` loops of `idwt` -/

theorem scatterAdd_length (l : List (Nat × Int)) (out : List Int) :
    (scatterAdd out l).length = out.length := by
  induction l generalizing out with
  | nil => rfl
  | cons p t ih =>
    have hstep : scatterAdd out (p :: t) = scatterAdd (scatter_step out p) t := rfl
    rw [hstep, ih, scatter_step, List.length_set]

theorem scatterAdd_getD (l : List (Nat × Int)) : ∀ (out : List Int) (k : Nat),
    k < out.length → toInt16 (out.getD k 0) = out.getD k 0 →
    (scatterAdd out l).getD k 0 =
      toInt16 (out.getD k 0 + ((l.filter fun p => p.1 == k).map fun p => toInt16 p.2).sum) := by
  induction l with
  | nil =>
    intro out k _ hinv
    simpa using hinv.symm
  | cons p t ih =>
    intro out k hk hinv
    have hstep : scatterAdd out (p :: t) = scatterAdd (scatter_step out p) t := rfl
    rw [hstep]
    by_cases hpk : p.1 = k
    · have hset : (scatter_step out p).getD k 0 = toInt16 (out.getD k 0 + toInt16 p.2) := by
        unfold scatter_step
        rw [hpk]
        exact getD_set_self out k _ hk
      have hlen : k < (scatter_step out p).length := by
        rw [scatter_step, List.length_set]; exact hk
      rw [ih (scatter_step out p) k hlen (by rw [hset, toInt16_idem]), hset,
        toInt16_add_left]
      have hfil : (p :: t).filter (fun p => p.1 == k) = p :: t.filter (fun p => p.1 == k) := by
        simp [List.filter_cons, hpk]
      rw [hfil, List.map_cons, List.sum_cons, add_assoc]
    · have hset : (scatter_step out p).getD k 0 = out.getD k 0 := by
        unfold scatter_step
        exact getD_set_ne out p.1 k _ hpk
      have hlen : k < (scatter_step out p).length := by
        rw [scatter_step, List.length_set]; exact hk
      rw [ih (scatter_step out p) k hlen (by rw [hset]; exact hinv), hset]
      have hfil : (p :: t).filter (fun p => p.1 == k) = t.filter (fun p => p.1 == k) := by
        simp [List.filter_cons, hpk]
      rw [hfil]

/-! ### Loop-to-sum characterisation helpers -/

theorem foldl_add_eq_sum (f : Nat → Int) (n : Nat) :
    (List.range n).foldl (fun acc j => acc + f j) 0 = ∑ j in Finset.range n, f j := by
  induction n with
  | zero => rfl
  | succ k ih => rw [List.range_succ, List.foldl_append, ih, Finset.sum_range_succ]; rfl

theorem dwt_accum_eq_sum (input kernel : List Int) (kl i n : Nat) :
    dwt_accum input kernel kl i n =
      ∑ j in Finset.range kl, input.getD (dwt_input_idx i j n) 0 * kernel.getD j 0 := by
  unfold dwt_accum
  exact foldl_add_eq_sum _ kl

theorem idwt_eq_some (approx detail : List Int) (m : Nat) (w : wavelet_type_t) (q : Nat)
    (h1 : 1 ≤ m) (h2 : (get_wavelet_coeffs w).len / 2 ≤ m) :
    idwt approx detail m w q =
      some (scatterAdd
              (scatterAdd (List.replicate (2 * m) 0)
                (idwt_contribs approx (get_wavelet_coeffs w).g0 (get_wavelet_coeffs w).len m q))
              (idwt_contribs detail (get_wavelet_coeffs w).g1 (get_wavelet_coeffs w).len m q)) := by
  unfold idwt
  rw [if_neg (by omega), if_neg (by omega)]

theorem idwt_getD_char (approx detail : List Int) (m : Nat) (w : wavelet_type_t) (q : Nat)
    (out : List Int) (h1 : 1 ≤ m) (h2 : (get_wavelet_coeffs w).len / 2 ≤ m)
    (hout : idwt approx detail m w q = some out) (k : Nat) (hk : k < 2 * m) :
    out.getD k 0 = toInt16
      ((((idwt_contribs approx (get_wavelet_coeffs w).g0 (get_wavelet_coeffs w).len m q).filter
          fun p => p.1 == k).map fun p => toInt16 p.2).sum +
       (((idwt_contribs detail (get_wavelet_coeffs w).g1 (get_wavelet_coeffs w).len m q).filter
          fun p => p.1 == k).map fun p => toInt16 p.2).sum) := by
  have hsome := idwt_eq_some approx detail m w q h1 h2
  rw [hout] at hsome
  have hout' := Option.some_injective _ hsome
  have hz : k < (List.replicate (2 * m) (0 : Int)).length := by
    rw [List.length_replicate]; exact hk
  have hinner := scatterAdd_getD
    (idwt_contribs approx (get_wavelet_coeffs w).g0 (get_wavelet_coeffs w).len m q)
    (List.replicate (2 * m) 0) k hz
    (by rw [getD_replicate_zero]; rfl)
  rw [getD_replicate_zero, zero_add] at hinner
  have hlen2 : k < (scatterAdd (List.replicate (2 * m) (0 : Int))
      (idwt_contribs approx (get_wavelet_coeffs w).g0 (get_wavelet_coeffs w).len m q)).length := by
    rw [scatterAdd_length, List.length_replicate]; exact hk
  have houter := scatterAdd_getD
    (idwt_contribs detail (get_wavelet_coeffs w).g1 (get_wavelet_coeffs w).len m q)
    (scatterAdd (List.replicate (2 * m) 0)
      (idwt_contribs approx (get_wavelet_coeffs w).g0 (get_wavelet_coeffs w).len m q))
    k hlen2 (by rw [hinner, toInt16_idem])
  rw [hinner, toInt16_add_left] at houter
  rw [hout', houter]

theorem idwt_length (approx detail : List Int) (m : Nat) (w : wavelet_type_t) (q : Nat)
    (out : List Int) (h1 : 1 ≤ m) (h2 : (get_wavelet_coeffs w).len / 2 ≤ m)
    (hout : idwt approx detail m w q = some out) : out.length = 2 * m := by
  have hsome := idwt_eq_some approx detail m w q h1 h2
  rw [hout] at hsome
  rw [Option.some_injective _ hsome, scatterAdd_length, scatterAdd_length,
    List.length_replicate]

/-! ### Claim theorems -/

/-- C1: the claim says `wavelet_filter` never crashes and silently shrinks
the effective level count for any valid signal and any requested level
count 1..8.  The code violates this: for every signal of length 1 — a
valid length the argument guards accept — and every requested level count
1..8, whenever the two unconditional allocations succeed, the
decomposition loop shrinks `levels` to 0, after which the reconstruction
seed `memcpy` reads `approx_coeffs_ptrs[levels - 1]`, i.e. element `-1` of
a stack array — an out-of-bounds access (undefined behaviour), modelled
here by the `none` result. -/
theorem wavelet_filter_len1_reads_out_of_bounds (x junk : Int) (allocOk : Nat → Bool)
    (c : wavelet_config_t) (hl1 : 1 ≤ c.decomposition_levels)
    (hl8 : c.decomposition_levels ≤ MAX_DECOMPOSITION_LEVELS)
    (ha0 : allocOk 0 = true) (ha1 : allocOk 1 = true) :
    wavelet_filter_alloc allocOk junk [x] c = none := by
  obtain ⟨r, hr⟩ : ∃ r, c.decomposition_levels = r + 1 :=
    ⟨c.decomposition_levels - 1, by omega⟩
  unfold wavelet_filter_alloc
  rw [if_neg (by simp [MAX_SIGNAL_LENGTH])]
  rw [if_neg (by simp [MAX_DECOMPOSITION_LEVELS] at hl8 ⊢; omega)]
  rw [if_neg (by simp [ha0])]
  simp only [List.length_singleton, hr, decompose, ha1]
  norm_num

theorem wavelet_filter_len1_reads_out_of_bounds_witness :
    (1 ≤ wavelet_get_default_config.decomposition_levels ∧
      wavelet_get_default_config.decomposition_levels ≤ MAX_DECOMPOSITION_LEVELS) ∧
    wavelet_filter [0] wavelet_get_default_config = none :=
  ⟨⟨by decide, by decide⟩,
   wavelet_filter_len1_reads_out_of_bounds 0 0 (fun _ => true)
     wavelet_get_default_config (by decide) (by decide) rfl rfl⟩

/-- C3: the claim says `idwt ∘ dwt` reconstructs any signal of length ≥
kernel length within a small mean-squared error, for every family at
Q-format 14.  The code violates this: the synthesis scatter index
`(2*i - j + 2m) mod 2m` combined with the time-reversed synthesis kernels
makes the round trip a *circular delay* by `kernel_len - 1` samples, not
the identity.  For the Haar family (kernel length 2 = signal length) and
`x = [100, 200]`, the round trip returns `[199, 98]` — `x` rotated by one
sample — with summed squared error 20205 (mean-squared error 10102.5). -/
theorem dwt_idwt_round_trip_defect :
    dwt [100, 200] 2 .WAVELET_HAAR 14 = some ([212], [-71]) ∧
    idwt [212] [-71] 1 .WAVELET_HAAR 14 = some [199, 98] ∧
    sum_sq_error [199, 98] [100, 200] = 20205 :=
  ⟨by decide, by decide, by decide⟩

/-- C6: the claimed scenario (signal `[10..80]`, Haar, Q-format 0) asserts
reconstruction with mean-squared error below 1.0, as does the repository's
own test `test_single_dwt_idwt`.  The code violates it: with Q-format 0
the Q14 Haar taps are not scaled back down, every coefficient and every
per-tap contribution wraps mod 2^16, and the reconstruction is garbage —
summed squared error 3111952624 over 8 samples (MSE ≈ 3.9e8), not < 1.0.
The band lengths (4 each) are as claimed. -/
theorem haar_q0_scenario_defect :
    dwt [10, 20, 30, 40, 50, 60, 70, 80] 8 .WAVELET_HAAR 0 =
      some ([-5926, -10574, -5926, -1278], [-24518, -15222, -15222, -15222]) ∧
    idwt [-5926, -10574, -5926, -1278] [-24518, -15222, -15222, -15222] 4 .WAVELET_HAAR 0 =
      some [-28512, -2500, -23512, -26012, 18512, 16012, -5000, 21012] ∧
    sum_sq_error [-28512, -2500, -23512, -26012, 18512, 16012, -5000, 21012]
      [10, 20, 30, 40, 50, 60, 70, 80] = 3111952624 :=
  ⟨by decide, by decide, by decide⟩

/-- C5 counterexample: the claim says that for *every* pair of bands of
length `m` the inverse transform zero-initialises a `2m`-sample output and
accumulates per-tap contributions into it.  For `m = 1` with Daubechies-4
(`m < kernel_len/2`), `idwt` instead returns before the `memset`, writing
nothing at all. -/
theorem idwt_one_pair_db4_writes_nothing :
    idwt [100] [100] 1 .WAVELET_DB4 14 = none := by decide

/-- C5 (amended with the guard `1 ≤ m` and `kernel_len/2 ≤ m` under which
the C loops actually run): `idwt` zero-initialises the `2m`-sample output
and then adds, for each band index `i` and tap `j`, the per-tap quantised
value `(coeffs[i]*g[j]) >> q` — truncated to `int16_t` — into output index
`(2*i - j + 2m) mod 2m`, approximation loop first, detail loop second;
the shift is applied per tap before summation (it sits inside every
element of the summed contribution lists), not once after accumulation. -/
theorem idwt_overlap_add_formula (approx detail : List Int) (m : Nat) (w : wavelet_type_t)
    (q : Nat) (h1 : 1 ≤ m) (h2 : (get_wavelet_coeffs w).len / 2 ≤ m) :
    ∃ out, idwt approx detail m w q = some out ∧ out.length = 2 * m ∧
      ∀ k, k < 2 * m → out.getD k 0 = toInt16
        ((((idwt_contribs approx (get_wavelet_coeffs w).g0 (get_wavelet_coeffs w).len m q).filter
            fun p => p.1 == k).map fun p => toInt16 p.2).sum +
         (((idwt_contribs detail (get_wavelet_coeffs w).g1 (get_wavelet_coeffs w).len m q).filter
            fun p => p.1 == k).map fun p => toInt16 p.2).sum) := by
  refine ⟨_, idwt_eq_some approx detail m w q h1 h2, ?_, ?_⟩
  · rw [scatterAdd_length, scatterAdd_length, List.length_replicate]
  · intro k hk
    exact idwt_getD_char approx detail m w q _ h1 h2 (idwt_eq_some approx detail m w q h1 h2) k hk

/-- C9: in `idwt` every per-tap contribution is truncated to a signed
16-bit value (`toInt16` applied to each summand below) before being added,
and the overlap-add accumulation happens directly in the 16-bit output
samples, so each final sample lies in `[-2^15, 2^15)` and is congruent
mod `2^16` to the plain sum of the truncated per-tap contributions — there
is no wider accumulator in the inverse transform (contrast the forward
transform, whose bands are a single truncation of an exact wide sum, per
the C4 theorem `dwt_forward_formula`). -/
theorem idwt_int16_accumulation (approx detail : List Int) (m : Nat) (w : wavelet_type_t)
    (q : Nat) (h1 : 1 ≤ m) (h2 : (get_wavelet_coeffs w).len / 2 ≤ m) :
    ∃ out, idwt approx detail m w q = some out ∧
      ∀ k, k < 2 * m →
        (-32768 ≤ out.getD k 0 ∧ out.getD k 0 < 32768) ∧
        out.getD k 0 % 65536 =
          ((((idwt_contribs approx (get_wavelet_coeffs w).g0 (get_wavelet_coeffs w).len m q).filter
              fun p => p.1 == k).map fun p => toInt16 p.2).sum +
           (((idwt_contribs detail (get_wavelet_coeffs w).g1 (get_wavelet_coeffs w).len m q).filter
              fun p => p.1 == k).map fun p => toInt16 p.2).sum) % 65536 := by
  refine ⟨_, idwt_eq_some approx detail m w q h1 h2, ?_⟩
  intro k hk
  have hchar := idwt_getD_char approx detail m w q _ h1 h2
    (idwt_eq_some approx detail m w q h1 h2) k hk
  rw [hchar]
  exact ⟨toInt16_wrap _, toInt16_emod_eq _⟩

/-- C10: when the band length is zero, or strictly below half the kernel
length of the chosen family, `idwt` returns without writing anything into
the output buffer — not even the zero-initialising `memset` runs. -/
theorem idwt_short_band_noop (approx detail : List Int) (m : Nat) (w : wavelet_type_t)
    (q : Nat) (h : m = 0 ∨ m < (get_wavelet_coeffs w).len / 2) :
    idwt approx detail m w q = none := by
  unfold idwt
  rcases h with h | h
  · rw [if_pos (by omega)]
  · by_cases h1 : m < 1
    · rw [if_pos h1]
    · rw [if_neg h1, if_pos h]

/-- C4: for an even input length `n` at least the kernel length, `dwt`
yields two bands of length `n/2`: index `i` of the approximation band is
the exact wide-integer sum `Σ_j input[(2i-j+n) mod n] * h0[j]`
arithmetically right-shifted by `q_format` and then truncated to 16 bits;
the detail band is the same with `h1`.  When `n` is below the kernel
length, `dwt` writes nothing. -/
theorem dwt_forward_formula (input : List Int) (w : wavelet_type_t) (q n : Nat) :
    (n % 2 = 0 → (get_wavelet_coeffs w).len ≤ n →
      ∃ ap de, dwt input n w q = some (ap, de) ∧
        ap.length = n / 2 ∧ de.length = n / 2 ∧
        (∀ i, i < n / 2 → ap.getD i 0 =
          toInt16 (asr (∑ j in Finset.range (get_wavelet_coeffs w).len,
            input.getD (dwt_input_idx i j n) 0 * (get_wavelet_coeffs w).h0.getD j 0) q)) ∧
        (∀ i, i < n / 2 → de.getD i 0 =
          toInt16 (asr (∑ j in Finset.range (get_wavelet_coeffs w).len,
            input.getD (dwt_input_idx i j n) 0 * (get_wavelet_coeffs w).h1.getD j 0) q))) ∧
    (n < (get_wavelet_coeffs w).len → dwt input n w q = none) := by
  constructor
  · intro _heven hkl
    have h2 : 2 ≤ n := le_trans (kernel_len_ge_two w) hkl
    refine ⟨(List.range (n / 2)).map fun i =>
        toInt16 (asr (dwt_accum input (get_wavelet_coeffs w).h0 (get_wavelet_coeffs w).len i n) q),
      (List.range (n / 2)).map fun i =>
        toInt16 (asr (dwt_accum input (get_wavelet_coeffs w).h1 (get_wavelet_coeffs w).len i n) q),
      ?_, ?_, ?_, ?_, ?_⟩
    · unfold dwt
      rw [if_neg (by omega), if_neg (by omega)]
    · rw [List.length_map, List.length_range]
    · rw [List.length_map, List.length_range]
    · intro i hi
      rw [getD_map_range _ _ _ hi, dwt_accum_eq_sum]
    · intro i hi
      rw [getD_map_range _ _ _ hi, dwt_accum_eq_sum]
  · intro hlt
    unfold dwt
    by_cases hn2 : n < 2
    · rw [if_pos hn2]
    · rw [if_neg hn2, if_pos hlt]

/-- C8: for any signal length at least the kernel length (in particular
`n = 6` with Daubechies-6), the index `(2*i - j + n) mod n` computed by
`dwt` — evaluated over ℤ exactly as the C `int` expression is — is
nonnegative, equals the ℕ-valued `dwt_input_idx`, and is less than `n`,
so the transform never reads outside the input buffer. -/
theorem dwt_index_bounds (w : wavelet_type_t) (n i j : Nat)
    (hn : (get_wavelet_coeffs w).len ≤ n) (_hi : i < n / 2)
    (hj : j < (get_wavelet_coeffs w).len) :
    ((2 * (i : Int) - (j : Int) + (n : Int)) % (n : Int)).toNat = dwt_input_idx i j n ∧
    dwt_input_idx i j n < n := by
  have h2 := kernel_len_ge_two w
  have hn0 : 0 < n := by omega
  have hjle : j ≤ 2 * i + n := by omega
  constructor
  · have hcast : 2 * (i : Int) - (j : Int) + (n : Int) = ((2 * i + n - j : Nat) : Int) := by
      rw [Nat.cast_sub hjle]
      push_cast
      ring
    rw [hcast, dwt_input_idx, ← Int.natCast_mod, Int.toNat_natCast]
  · exact Nat.mod_lt _ hn0

/-- C7: for the same band and the same nonnegative threshold magnitude,
every soft-thresholded coefficient has magnitude at most that of the
corresponding hard-thresholded coefficient. -/
theorem soft_le_hard_magnitude (band : List Int) (cS cH : wavelet_config_t)
    (hS : cS.threshold_type = .THRESHOLD_SOFT) (hH : cH.threshold_type = .THRESHOLD_HARD)
    (hEq : cS.threshold_value = cH.threshold_value) (hNonneg : 0 ≤ cH.threshold_value)
    (k : Nat) :
    |(apply_thresholding band cS).getD k 0| ≤ |(apply_thresholding band cH).getD k 0| := by
  by_cases hb : band.length = 0
  · unfold apply_thresholding
    rw [if_pos hb, if_pos hb]
  · have hSfull : apply_thresholding band cS = band.map fun c =>
        if |c| < cH.threshold_value then 0
        else if 0 < c then c - cH.threshold_value else c + cH.threshold_value := by
      unfold apply_thresholding
      rw [if_neg hb, hS, hEq]
    have hHfull : apply_thresholding band cH = band.map fun c =>
        if |c| < cH.threshold_value then 0 else c := by
      unfold apply_thresholding
      rw [if_neg hb, hH]
    rw [hSfull, hHfull]
    by_cases hk : k < band.length
    · rw [getD_map_lt _ _ _ hk, getD_map_lt _ _ _ hk]
      set c := band.getD k 0 with hc
      set t := cH.threshold_value with ht
      by_cases hct : |c| < t
      · rw [if_pos hct, if_pos hct]
      · rw [if_neg hct, if_neg hct]
        have habs : t ≤ |c| := not_lt.mp hct
        by_cases hpos : 0 < c
        · rw [if_pos hpos]
          rw [abs_of_pos hpos] at habs
          rw [abs_of_pos hpos, abs_of_nonneg (by omega : (0 : ℤ) ≤ c - t)]
          omega
        · rw [if_neg hpos]
          have hc0 : c ≤ 0 := not_lt.mp hpos
          rw [abs_of_nonpos hc0] at habs
          rw [abs_of_nonpos hc0, abs_of_nonpos (by omega : c + t ≤ 0)]
          omega
    · rw [getD_of_length_le _ _ (by rw [List.length_map]; omega),
        getD_of_length_le _ _ (by rw [List.length_map]; omega)]

theorem wavelet_filter_alloc_noop (allocOk : Nat → Bool) (junk : Int)
    (s : List Int) (c : wavelet_config_t)
    (h : s.length = 0 ∨ MAX_SIGNAL_LENGTH < s.length ∨
         c.decomposition_levels = 0 ∨ MAX_DECOMPOSITION_LEVELS < c.decomposition_levels ∨
         allocOk 0 = false ∨ allocOk 1 = false) :
    wavelet_filter_alloc allocOk junk s c = some s := by
  unfold wavelet_filter_alloc
  by_cases h1 : s.length = 0 ∨ MAX_SIGNAL_LENGTH < s.length
  · rw [if_pos h1]
  · rw [if_neg h1]
    by_cases hl2 : c.decomposition_levels = 0 ∨
        MAX_DECOMPOSITION_LEVELS < c.decomposition_levels
    · rw [if_pos hl2]
    · rw [if_neg hl2]
      by_cases h3 : allocOk 0 = false
      · rw [if_pos h3]
      · rw [if_neg h3]
        have h4 : allocOk 1 = false := by tauto
        simp only [h4, if_true]

/-- C2: every call with a null signal, a null configuration, a zero-length
or oversize signal, a zero or over-maximum level count, or a failed
internal scratch allocation (the coefficient region or the reconstruction
seed buffer — the two allocations every non-early path performs) returns
with the caller's signal buffer untouched; the function has no error
channel at all (its result is only the final buffer contents). -/
theorem wavelet_filter_invalid_args_noop (sig : Option (List Int))
    (cfg : Option wavelet_config_t) (allocOk : Nat → Bool) (junk : Int)
    (h : sig = none ∨ cfg = none ∨
      (∃ s, sig = some s ∧ (s.length = 0 ∨ MAX_SIGNAL_LENGTH < s.length)) ∨
      (∃ c, cfg = some c ∧ (c.decomposition_levels = 0 ∨
        MAX_DECOMPOSITION_LEVELS < c.decomposition_levels)) ∨
      allocOk 0 = false ∨ allocOk 1 = false) :
    wavelet_filter_opt sig cfg allocOk junk = some sig := by
  cases sig with
  | none => rfl
  | some s =>
    cases cfg with
    | none => rfl
    | some c =>
      have hcond : s.length = 0 ∨ MAX_SIGNAL_LENGTH < s.length ∨
          c.decomposition_levels = 0 ∨ MAX_DECOMPOSITION_LEVELS < c.decomposition_levels ∨
          allocOk 0 = false ∨ allocOk 1 = false := by
        rcases h with h | h | ⟨s', hs', hcase⟩ | ⟨c', hc', hcase⟩ | h | h
        · exact absurd h (by simp)
        · exact absurd h (by simp)
        · obtain rfl : s = s' := by injection hs'
          tauto
        · obtain rfl : c = c' := by injection hc'
          tauto
        · tauto
        · tauto
      show (wavelet_filter_alloc allocOk junk s c).map some = some (some s)
      rw [wavelet_filter_alloc_noop allocOk junk s c hcond]
      rfl

/-! ### Witnesses -/

theorem wavelet_filter_invalid_args_noop_witness :
    wavelet_filter_opt (some [7, 8])
      (some { wavelet_get_default_config with decomposition_levels := 0 })
      (fun _ => true) 0 = some (some [7, 8]) :=
  wavelet_filter_invalid_args_noop _ _ _ _
    (Or.inr (Or.inr (Or.inr (Or.inl ⟨_, rfl, Or.inl rfl⟩))))

theorem dwt_forward_formula_witness :
    4 % 2 = 0 ∧ (get_wavelet_coeffs .WAVELET_DB4).len ≤ 4 ∧
    ∃ ap de, dwt [1, 2, 3, 4] 4 .WAVELET_DB4 14 = some (ap, de) ∧
      ap.length = 4 / 2 ∧ de.length = 4 / 2 := by
  obtain ⟨hmain, -⟩ := dwt_forward_formula [1, 2, 3, 4] .WAVELET_DB4 14 4
  obtain ⟨ap, de, hsome, hla, hld, -, -⟩ := hmain (by decide) (by decide)
  exact ⟨by decide, by decide, ap, de, hsome, hla, hld⟩

theorem idwt_overlap_add_formula_witness :
    1 ≤ 1 ∧ (get_wavelet_coeffs .WAVELET_HAAR).len / 2 ≤ 1 ∧
    ∃ out, idwt [100] [7] 1 .WAVELET_HAAR 14 = some out ∧ out.length = 2 := by
  obtain ⟨out, hsome, hlen, -⟩ :=
    idwt_overlap_add_formula [100] [7] 1 .WAVELET_HAAR 14 (by decide) (by decide)
  exact ⟨by decide, by decide, out, hsome, hlen⟩

theorem idwt_int16_accumulation_witness :
    ∃ out, idwt [30000] [30000] 1 .WAVELET_HAAR 0 = some out ∧
      -32768 ≤ out.getD 0 0 ∧ out.getD 0 0 < 32768 := by
  obtain ⟨out, hsome, hall⟩ :=
    idwt_int16_accumulation [30000] [30000] 1 .WAVELET_HAAR 0 (by decide) (by decide)
  exact ⟨out, hsome, (hall 0 (by decide)).1⟩

theorem soft_le_hard_magnitude_witness :
    |(apply_thresholding [5, -20, 300]
        ⟨.WAVELET_DB4, .THRESHOLD_SOFT, 6, 10, 14⟩).getD 1 0| ≤
    |(apply_thresholding [5, -20, 300]
        ⟨.WAVELET_DB4, .THRESHOLD_HARD, 6, 10, 14⟩).getD 1 0| :=
  soft_le_hard_magnitude [5, -20, 300]
    ⟨.WAVELET_DB4, .THRESHOLD_SOFT, 6, 10, 14⟩
    ⟨.WAVELET_DB4, .THRESHOLD_HARD, 6, 10, 14⟩ rfl rfl rfl (by decide) 1

theorem dwt_index_bounds_witness :
    ((2 * (2 : Int) - (5 : Int) + (6 : Int)) % (6 : Int)).toNat = dwt_input_idx 2 5 6 ∧
    dwt_input_idx 2 5 6 < 6 :=
  dwt_index_bounds .WAVELET_DB6 6 2 5 (by decide) (by decide) (by decide)

theorem idwt_short_band_noop_witness :
    ((2 : Nat) = 0 ∨ 2 < (get_wavelet_coeffs .WAVELET_DB6).len / 2) ∧
    idwt [3, 4] [5, 6] 2 .WAVELET_DB6 14 = none :=
  ⟨Or.inr (by decide),
   idwt_short_band_noop [3, 4] [5, 6] 2 .WAVELET_DB6 14 (Or.inr (by decide))⟩
